import Mathlib

/-!
Shallow embedding of the SecurityTxTChecker browser extension core
(`src/service_worker.js`, `src/popup.js`) and proofs about it.

JavaScript strings are modelled as `List Char`.  Host-platform APIs
(the WHATWG URL parser, `Date` parsing, `fetch`) are modelled either as
explicit oracle parameters or, where a claim needs concrete evaluation,
as small executable models of the host behaviour documented at the
corresponding definition.
-/

set_option maxHeartbeats 1000000

abbrev Str := List Char

def str (s : String) : Str := s.toList

/-- Whitespace predicate shared by the model of JS `String.prototype.trim`
and of the regex class `\s` (ASCII part; both use the same set in JS). -/
def isWs (c : Char) : Bool :=
  c = ' ' ∨ c = '\t' ∨ c = '\n' ∨ c = '\r' ∨ c = '\x0b' ∨ c = '\x0c'

/-- Drop trailing whitespace. -/
def trimRight (l : Str) : Str := (l.reverse.dropWhile isWs).reverse

/-- Model of JS `String.prototype.trim`: drop leading and trailing whitespace. -/
def jsTrim (s : Str) : Str := trimRight (s.dropWhile isWs)

/-- `normalizePath` from `src/service_worker.js` lines 243-248:
trim, return "" if empty, prepend "/" unless already present. -/
def normalizePath (p : Str) : Str :=
  let x := jsTrim p
  if x = [] then []
  else if x.head? = some '/' then x
  else '/' :: x

-- ### Generic dropWhile / trim lemmas

theorem head_dropWhile_not {P : Char → Bool} :
    ∀ (l : Str) (a : Char), (l.dropWhile P).head? = some a → P a = false := by
  intro l
  induction l with
  | nil => intro a h; simp [List.dropWhile] at h
  | cons c rest ih =>
    intro a h
    by_cases hc : P c
    · rw [List.dropWhile_cons_of_pos hc] at h
      exact ih a h
    · rw [List.dropWhile_cons_of_neg hc] at h
      simp at h
      cases h
      exact Bool.eq_false_iff.mpr hc

theorem dropWhile_of_head {P : Char → Bool} {l : Str} {a : Char}
    (h : l.head? = some a) (ha : P a = false) : l.dropWhile P = l := by
  cases l with
  | nil => rfl
  | cons c rest =>
    simp at h
    rw [← h] at ha
    exact List.dropWhile_cons_of_neg (by simp [ha])

theorem dropWhile_dropWhile {P : Char → Bool} (l : Str) :
    (l.dropWhile P).dropWhile P = l.dropWhile P := by
  cases h : (l.dropWhile P).head? with
  | none =>
    have : l.dropWhile P = [] := by
      cases hl : l.dropWhile P with
      | nil => rfl
      | cons a t => rw [hl] at h; simp at h
    rw [this]; rfl
  | some a => exact dropWhile_of_head h (head_dropWhile_not l a h)

theorem trimRight_trimRight (l : Str) : trimRight (trimRight l) = trimRight l := by
  unfold trimRight
  rw [List.reverse_reverse, dropWhile_dropWhile]

/-- `trimRight l` is a prefix of `l`: there is a dropped suffix. -/
theorem trimRight_prefix (l : Str) : ∃ t, l = trimRight l ++ t := by
  obtain ⟨t, ht⟩ := List.dropWhile_suffix (l := l.reverse) (p := isWs)
  refine ⟨t.reverse, ?_⟩
  conv_lhs => rw [← List.reverse_reverse l, ← ht]
  rw [List.reverse_append]
  rfl

theorem head?_append_left {l t : Str} (h : l ≠ []) : (l ++ t).head? = l.head? := by
  cases l with
  | nil => exact absurd rfl h
  | cons a r => rfl

/-- If the head of `l` is not dropped by `dropWhile`, neither is the head of
`trimRight l` (which is a prefix of `l`). -/
theorem dropWhile_trimRight {l : Str} (h : l.dropWhile isWs = l) :
    (trimRight l).dropWhile isWs = trimRight l := by
  cases hl : trimRight l with
  | nil => rfl
  | cons a r =>
    obtain ⟨t, ht⟩ := trimRight_prefix l
    rw [hl] at ht
    have hhead : l.head? = some a := by
      rw [ht, head?_append_left (by simp)]
      rfl
    have ha : isWs a = false := by
      apply head_dropWhile_not (P := isWs) l a
      rw [h]
      exact hhead
    rw [← hl]
    exact dropWhile_of_head (by rw [hl]; rfl) ha

theorem jsTrim_idem (s : Str) : jsTrim (jsTrim s) = jsTrim s := by
  unfold jsTrim
  rw [dropWhile_trimRight (dropWhile_dropWhile s), trimRight_trimRight]

/-- The reverse of `jsTrim s` is itself a `dropWhile` result, so a nonempty
trimmed string has a non-whitespace last character. -/
theorem jsTrim_reverse (s : Str) :
    (jsTrim s).reverse = (s.dropWhile isWs).reverse.dropWhile isWs := by
  unfold jsTrim trimRight
  rw [List.reverse_reverse]

theorem jsTrim_cons_slash {s : Str} :
    jsTrim ('/' :: jsTrim s) = '/' :: jsTrim s := by
  have hs : isWs '/' = false := by decide
  unfold jsTrim
  rw [List.dropWhile_cons_of_neg (by simp [hs])]
  show trimRight ('/' :: jsTrim s) = '/' :: jsTrim s
  unfold trimRight
  rw [List.reverse_cons]
  have hdrop : List.dropWhile isWs ((jsTrim s).reverse ++ ['/']) =
      (jsTrim s).reverse ++ ['/'] := by
    cases ht : (jsTrim s).reverse with
    | nil => simp [List.dropWhile_cons_of_neg, hs]
    | cons a r =>
      have ha : isWs a = false := by
        apply head_dropWhile_not (P := isWs) ((s.dropWhile isWs).reverse) a
        rw [← jsTrim_reverse, ht]
        rfl
      exact dropWhile_of_head (l := a :: r ++ ['/']) rfl ha
  rw [hdrop, List.reverse_append]
  simp

/-- Claim C4 counterexample: the empty path normalizes to the empty string,
which does not start with `/`, refuting "the result always starts with `/`". -/
theorem claim4_counterexample :
    normalizePath [] = [] ∧ ¬ (normalizePath []).head? = some '/' := by
  constructor
  · rfl
  · intro h
    simp [normalizePath, jsTrim, trimRight] at h

/-- C4 (amended): `normalizePath` is idempotent, and whenever the trimmed
input is nonempty (equivalently, whenever the result is nonempty), the
result starts with `/`.  The original claim fails only on inputs whose
trim is empty, which normalize to the empty string. -/
theorem claim4_normalizePath (p : Str) :
    normalizePath (normalizePath p) = normalizePath p ∧
    (jsTrim p ≠ [] → (normalizePath p).head? = some '/') := by
  constructor
  · unfold normalizePath
    by_cases h0 : jsTrim p = []
    · simp only [h0]
      simp [jsTrim, trimRight]
    · simp only [if_neg h0]
      by_cases h1 : (jsTrim p).head? = some '/'
      · simp only [if_pos h1]
        have ht : jsTrim (jsTrim p) = jsTrim p := jsTrim_idem p
        simp only [ht, if_neg h0, if_pos h1]
      · simp only [if_neg h1]
        have ht : jsTrim ('/' :: jsTrim p) = '/' :: jsTrim p := jsTrim_cons_slash
        simp only [ht]
        rw [if_neg (by simp), if_pos (by rfl)]
  · intro hne
    unfold normalizePath
    simp only [if_neg hne]
    by_cases h1 : (jsTrim p).head? = some '/'
    · simp only [if_pos h1]; exact h1
    · simp only [if_neg h1]; rfl

/-- Witness for C4 at a concrete input with nonempty trim. -/
theorem claim4_witness :
    normalizePath (normalizePath (str " a ")) = normalizePath (str " a ") ∧
    (normalizePath (str " a ")).head? = some '/' := by
  have h := claim4_normalizePath (str " a ")
  exact ⟨h.1, h.2 (by decide)⟩

-- ### Manifest parser (`parseSecurityTxt`, src/popup.js lines 72-96)

/-- Split a string on a separator character (JS `String.prototype.split`
with a single-character separator: empty pieces are kept, and the result
always has at least one piece). -/
def splitOnChar (sep : Char) : Str → List Str
  | [] => [[]]
  | c :: rest =>
    if c = sep then [] :: splitOnChar sep rest
    else
      match splitOnChar sep rest with
      | [] => [[c]]
      | l :: ls => (c :: l) :: ls

/-- Apply `f` to every element except the last. -/
def mapAllButLast (f : Str → Str) : List Str → List Str
  | [] => []
  | [a] => [a]
  | a :: b :: rest => f a :: mapAllButLast f (b :: rest)

/-- Drop one trailing carriage return, if present. -/
def dropTrailingCR (l : Str) : Str :=
  match l.reverse with
  | '\r' :: rest => rest.reverse
  | _ => l

/-- Model of `text.split(/\r?\n/)`: split on `\n`, then strip one trailing
`\r` from every piece that was followed by a `\n` (all but the last). -/
def splitLines (s : Str) : List Str :=
  mapAllButLast dropTrailingCR (splitOnChar '\n' s)

/-- ASCII lower-casing as performed by JS `toLowerCase` / the regex `i`
flag on ASCII letters. -/
def jsToLower (c : Char) : Char :=
  if h : 65 ≤ c.toNat ∧ c.toNat ≤ 90 then
    Char.mk (UInt32.ofNat (c.toNat + 32)) (by
      have hv : (UInt32.ofNat (c.toNat + 32)).toNat = c.toNat + 32 := by
        apply UInt32.toNat_ofNat_of_lt
        have hs : UInt32.size = 4294967296 := rfl
        omega
      left
      rw [hv]
      omega)
  else c

def toLowerStr (s : Str) : Str := s.map jsToLower

/-- Character class `[A-Za-z0-9-]` of the field-name grammar. -/
def nameChar (c : Char) : Bool := c.isAlpha ∨ c.isDigit ∨ c = '-'

/-- Model of the line match `/^([A-Za-z0-9-]+)\s*:\s*(.*)$/` on a line that
contains no `\n`: a nonempty maximal run of name characters, optional
whitespace, a colon, optional whitespace, then the value.  Since `.` does
not match `\r`, a value containing a carriage return makes the whole
regex fail. -/
def matchFieldLine (line : Str) : Option (Str × Str) :=
  let name := line.takeWhile nameChar
  match (line.dropWhile nameChar).dropWhile isWs with
  | ':' :: rest =>
    let value := rest.dropWhile isWs
    if name ≠ [] ∧ ¬ value.contains '\r' then some (name, value) else none
  | _ => none

structure FieldEntry where
  name : Str
  values : List Str
deriving DecidableEq

/-- Field map: association list keyed by lower-cased field name, in
insertion order (models the JS object `fields`). -/
abbrev FieldMap := List (Str × FieldEntry)

def lookupField : FieldMap → Str → Option FieldEntry
  | [], _ => none
  | (k, e) :: rest, key => if k = key then some e else lookupField rest key

def getValues (m : FieldMap) (key : Str) : List Str :=
  match lookupField m key with
  | some e => e.values
  | none => []

/-- Append a value under `key`; on first insertion record `name` as the
display name (models `if (!fields[key]) fields[key] = { name, values: [] };
fields[key].values.push(value)`). -/
def pushValue (m : FieldMap) (key name value : Str) : FieldMap :=
  match m with
  | [] => [(key, ⟨name, [value]⟩)]
  | (k, e) :: rest =>
    if k = key then (k, ⟨e.name, e.values ++ [value]⟩) :: rest
    else (k, e) :: pushValue rest key name value

def unparsedKey : Str := str "__unparsed"

/-- One iteration of the parse loop of `parseSecurityTxt`. -/
def parseStep (m : FieldMap) (line0 : Str) : FieldMap :=
  let line := jsTrim line0
  if line = [] then m
  else if line.head? = some '#' then m
  else
    match matchFieldLine line with
    | some (name, value) => pushValue m (toLowerStr name) name value
    | none => pushValue m unparsedKey unparsedKey line0

/-- `parseSecurityTxt` from `src/popup.js` lines 72-96. -/
def parseSecurityTxt (text : Str) : FieldMap :=
  (splitLines text).foldl parseStep []

-- ### Host API models (WHATWG URL parser, Date parsing)

/-- Result of the host URL parser: the pieces the extension reads. -/
structure UrlParts where
  protocol : Str
  hostname : Str
deriving DecidableEq

/-- Host environment: the WHATWG `new URL` parser and the `new Date(s)`
parser (returning the epoch-milliseconds `getTime` value, or `none` when
the result is an Invalid Date).  Both are host-provided, so the lint and
probe layers are parameterized over them. -/
structure JsEnv where
  urlParse : Str → Option UrlParts
  dateParse : Str → Option Int

def natOfDigits (ds : Str) : Nat := ds.foldl (fun a c => a * 10 + (c.toNat - 48)) 0

def takeDigits (n : Nat) (s : Str) : Option (Nat × Str) :=
  let ds := s.take n
  if ds.length = n ∧ ds.all Char.isDigit then some (natOfDigits ds, s.drop n) else none

def isLeapYear (y : Int) : Bool :=
  (y.emod 4 = 0 ∧ y.emod 100 ≠ 0) ∨ y.emod 400 = 0

def daysInMonth (y : Int) (m : Nat) : Nat :=
  if m = 2 then (if isLeapYear y then 29 else 28)
  else if m = 4 ∨ m = 6 ∨ m = 9 ∨ m = 11 then 30
  else 31

/-- Days since 1970-01-01 of a proleptic Gregorian civil date. -/
def daysFromCivil (y : Int) (m d : Nat) : Int :=
  let yAdj : Int := if m ≤ 2 then y - 1 else y
  let era : Int := yAdj.ediv 400
  let yoe : Nat := (yAdj - era * 400).toNat
  let mp : Nat := (m + 9) % 12
  let doy : Nat := (153 * mp + 2) / 5 + d - 1
  let doe : Nat := yoe * 365 + yoe / 4 - yoe / 100 + doy
  era * 146097 + (doe : Int) - 719468

def parseYear : Str → Option (Int × Str)
  | '+' :: r => (takeDigits 6 r).map (fun p => ((p.1 : Int), p.2))
  | '-' :: r =>
    (takeDigits 6 r).bind (fun p => if p.1 = 0 then none else some ((-(p.1 : Int)), p.2))
  | s => (takeDigits 4 s).map (fun p => ((p.1 : Int), p.2))

def parseDashNum (s : Str) : Option (Nat × Str) :=
  match s with
  | '-' :: r => takeDigits 2 r
  | _ => none

structure TimeParts where
  hh : Nat
  mi : Nat
  ss : Nat
  ms : Nat

def parseTimeOfDay (s : Str) : Option (TimeParts × Str) :=
  (takeDigits 2 s).bind fun p1 =>
    match p1.2 with
    | ':' :: r2 =>
      (takeDigits 2 r2).bind fun p2 =>
        match p2.2 with
        | ':' :: r4 =>
          (takeDigits 2 r4).bind fun p3 =>
            match p3.2 with
            | '.' :: r6 =>
              (takeDigits 3 r6).map fun p4 => (⟨p1.1, p2.1, p3.1, p4.1⟩, p4.2)
            | r5 => some (⟨p1.1, p2.1, p3.1, 0⟩, r5)
        | r3 => some (⟨p1.1, p2.1, 0, 0⟩, r3)
    | _ => none

def parseTzHM (r : Str) (sign : Int) : Option (Option Int) :=
  (takeDigits 2 r).bind fun p1 =>
    match p1.2 with
    | ':' :: r2 =>
      (takeDigits 2 r2).bind fun p2 =>
        if p2.2 = [] ∧ p1.1 ≤ 23 ∧ p2.1 ≤ 59 then
          some (some (sign * (((p1.1 * 60 + p2.1 : Nat) : Int) * 60000)))
        else none
    | _ => none

/-- Parse the timezone designator: absent, `Z`, or `±HH:mm`. -/
def parseTzOffset : Str → Option (Option Int)
  | [] => some none
  | ['Z'] => some (some 0)
  | '+' :: r => parseTzHM r 1
  | '-' :: r => parseTzHM r (-1)
  | _ => none

/-- Modelled host API: ECMA-262 `Date` parsing of the specified Date Time
String Format `YYYY[-MM[-DD]][THH:mm[:ss[.sss]]][Z|±HH:mm]` (the only
format whose parsing ECMA-262 specifies; this models `new Date(s).getTime()`
on such strings).  A date-time without an offset designator is a local
time, so the host timezone offset (in ms, subtracted from local to get
UTC) is a parameter; date-only forms are UTC. -/
def isoDateParse (localOffsetMs : Int) (s : Str) : Option Int :=
  (parseYear s).bind fun py =>
    let y := py.1
    let (mo, r1) := match parseDashNum py.2 with
      | some p => (p.1, p.2)
      | none => (1, py.2)
    let (dd, r2) := match parseDashNum r1 with
      | some p => (p.1, p.2)
      | none => (1, r1)
    let datePart : Option (TimeParts × Option Int × Bool) :=
      match r2 with
      | [] => some (⟨0, 0, 0, 0⟩, some 0, true)
      | 'T' :: r3 =>
        (parseTimeOfDay r3).bind fun pt =>
          (parseTzOffset pt.2).map fun off => (pt.1, off, false)
      | _ => none
    datePart.bind fun q =>
      let tp := q.1
      let offMs : Int := match q.2.1 with
        | some o => o
        | none => localOffsetMs
      if 1 ≤ mo ∧ mo ≤ 12 ∧ 1 ≤ dd ∧ dd ≤ daysInMonth y mo ∧
          tp.hh ≤ 24 ∧ (tp.hh = 24 → tp.mi = 0 ∧ tp.ss = 0 ∧ tp.ms = 0) ∧
          tp.mi ≤ 59 ∧ tp.ss ≤ 59 then
        let t : Int := daysFromCivil y mo dd * 86400000 +
          (tp.hh : Int) * 3600000 + (tp.mi : Int) * 60000 +
          (tp.ss : Int) * 1000 + (tp.ms : Int) - offMs
        if t.natAbs ≤ 8640000000000000 then some t else none
      else none

/-- Civil date from days since 1970-01-01 (proleptic Gregorian). -/
def civilFromDays (z0 : Int) : Int × Nat × Nat :=
  let z := z0 + 719468
  let era : Int := z.ediv 146097
  let doe : Nat := (z - era * 146097).toNat
  let yoe : Nat := (doe - doe / 1460 + doe / 36524 - doe / 146096) / 365
  let doy : Nat := doe - (365 * yoe + yoe / 4 - yoe / 100)
  let mp : Nat := (5 * doy + 2) / 153
  let d : Nat := doy - (153 * mp + 2) / 5 + 1
  let m : Nat := if mp < 10 then mp + 3 else mp - 9
  ((yoe : Int) + era * 400 + (if m ≤ 2 then 1 else 0), m, d)

def padDigits (w : Nat) (n : Nat) : Str :=
  let ds := (Nat.repr n).toList
  List.replicate (w - ds.length) '0' ++ ds

/-- Modelled host API: `Date.prototype.toISOString` for timestamps whose
year lies in 0..9999 (the extension only renders it into lint messages). -/
def toIsoString (t : Int) : Str :=
  let days := t.ediv 86400000
  let rem : Nat := (t - days * 86400000).toNat
  match civilFromDays days with
  | (y, m, d) =>
    padDigits 4 y.toNat ++ str "-" ++ padDigits 2 m ++ str "-" ++ padDigits 2 d ++
    str "T" ++ padDigits 2 (rem / 3600000) ++ str ":" ++
    padDigits 2 (rem / 60000 % 60) ++ str ":" ++ padDigits 2 (rem / 1000 % 60) ++
    str "." ++ padDigits 3 (rem % 1000) ++ str "Z"

-- ### Lint engine (`lint` and helpers, src/popup.js lines 98-193)

/-- `looksLikeUrlOrMailto` from src/popup.js lines 98-108: trimmed nonempty,
and either a case-insensitive `mailto:` prefix or a URL whose protocol is
`http:` or `https:`. -/
def looksLikeUrlOrMailto (urlParse : Str → Option UrlParts) (v : Str) : Bool :=
  let s := jsTrim v
  if s = [] then false
  else if toLowerStr (s.take 7) = str "mailto:" then true
  else
    match urlParse s with
    | some u => if u.protocol = str "https:" ∨ u.protocol = str "http:" then true else false
    | none => false

/-- `parseRfc3339Date` from src/popup.js lines 110-116: trim, reject empty,
delegate to the host date parser (`none` models an Invalid Date). -/
def parseRfc3339Date (dateParse : Str → Option Int) (s : Str) : Option Int :=
  let v := jsTrim s
  if v = [] then none else dateParse v

inductive Level where
  | warn
  | fail
deriving DecidableEq, BEq

inductive Verdict where
  | ok
  | warn
  | fail
deriving DecidableEq, BEq

structure Issue where
  level : Level
  msg : Str
deriving DecidableEq

structure Report where
  verdict : Verdict
  score : Int
  issues : List Issue
deriving DecidableEq

def natStr (n : Nat) : Str := (Nat.repr n).toList

/-- Contact rule (src/popup.js lines 130-139): returns the issues it emits
and the penalty it subtracts. -/
def ruleContact (urlParse : Str → Option UrlParts) (contacts : List Str) :
    List Issue × Int :=
  if contacts.length = 0 then
    ([⟨Level.fail, str "Missing Contact: field (provide at least one security contact)."⟩], 60)
  else
    let bad := contacts.filter (fun c => ! looksLikeUrlOrMailto urlParse c)
    if bad.length ≠ 0 then
      ([⟨Level.warn, str "Contact: has " ++ natStr bad.length ++
          str " value(s) that do not look like a URL or mailto."⟩], 15)
    else ([], 0)

/-- Expires rule (src/popup.js lines 141-153). -/
def ruleExpires (dateParse : Str → Option Int) (now : Int) (expires : List Str) :
    List Issue × Int :=
  match expires with
  | [] => ([⟨Level.warn, str "Missing Expires: field (recommended)."⟩], 10)
  | e0 :: _ =>
    match parseRfc3339Date dateParse e0 with
    | none => ([⟨Level.warn, str "Expires: present but not parseable as a date/time."⟩], 10)
    | some d =>
      if d < now then
        ([⟨Level.fail, str "Expires: is in the past (" ++ toIsoString d ++ str ")."⟩], 35)
      else ([], 0)

/-- Policy rule (src/popup.js lines 155-164). -/
def rulePolicy (urlParse : Str → Option UrlParts) (policy : List Str) :
    List Issue × Int :=
  if policy.length = 0 then
    ([⟨Level.warn, str "Missing Policy: field (recommended; points to disclosure policy)."⟩], 5)
  else
    let bad := policy.filter (fun p => ! looksLikeUrlOrMailto urlParse p)
    if bad.length ≠ 0 then
      ([⟨Level.warn, str "Policy: value(s) should usually be a URL."⟩], 5)
    else ([], 0)

/-- Language-tag test `/^[A-Za-z]{1,8}(-[A-Za-z0-9]{1,8})*$/`: groups
separated by `-`, the first 1-8 letters, the rest 1-8 alphanumerics. -/
def langTagOk (t : Str) : Bool :=
  match splitOnChar '-' t with
  | [] => false
  | g :: gs =>
    (decide (1 ≤ g.length) && decide (g.length ≤ 8) && g.all Char.isAlpha) &&
    gs.all (fun x => decide (1 ≤ x.length) && decide (x.length ≤ 8) && x.all Char.isAlphanum)

/-- Preferred-Languages rule (src/popup.js lines 166-176). -/
def rulePrefLang (prefLang : List Str) : List Issue × Int :=
  if prefLang.length ≠ 0 then
    let bad := ((((prefLang.map (splitOnChar ',')).flatten).map jsTrim).filter
      (fun x => x ≠ [])).filter (fun tag => ! langTagOk tag)
    if bad.length ≠ 0 then
      ([⟨Level.warn, str "Preferred-Languages: contains suspicious tag(s): " ++
          List.intercalate (str ", ") bad⟩], 3)
    else ([], 0)
  else ([], 0)

/-- Bonus (src/popup.js lines 178-179): +2 per nonempty field among
Encryption, Acknowledgments, Hiring, capped at 6. -/
def lintBonus (encryption acknowledgments hiring : List Str) : Int :=
  min 6 ((([encryption, acknowledgments, hiring].filter
    (fun a => decide (0 < a.length))).length : Int) * 2)

/-- Unparsed-lines rule (src/popup.js lines 181-184). -/
def ruleUnparsed (unparsedVals : List Str) : List Issue × Int :=
  if unparsedVals.length ≠ 0 then
    ([⟨Level.warn, str "Found " ++ natStr unparsedVals.length ++
        str " non “Field: value” line(s)."⟩], 5)
  else ([], 0)

/-- Verdict derivation (src/popup.js lines 188-191). -/
def verdictOf (issues : List Issue) : Verdict :=
  if issues.any (fun i => i.level == Level.fail) then Verdict.fail
  else if issues.any (fun i => i.level == Level.warn) then Verdict.warn
  else Verdict.ok

/-- `lint` from src/popup.js lines 118-193.  `now` models the single
`Date.now()` call; the issue list is the rule order of the source and the
score is 100 minus the penalties plus the bonus, clamped to [0, 100]. -/
def lint (env : JsEnv) (now : Int) (fields : FieldMap) : Report :=
  let contacts := getValues fields (str "contact")
  let expires := getValues fields (str "expires")
  let policy := getValues fields (str "policy")
  let prefLang := getValues fields (str "preferred-languages")
  let encryption := getValues fields (str "encryption")
  let acknowledgments := getValues fields (str "acknowledgments")
  let hiring := getValues fields (str "hiring")
  let r1 := ruleContact env.urlParse contacts
  let r2 := ruleExpires env.dateParse now expires
  let r3 := rulePolicy env.urlParse policy
  let r4 := rulePrefLang prefLang
  let bonus := lintBonus encryption acknowledgments hiring
  let r6 := ruleUnparsed (getValues fields unparsedKey)
  let rawScore : Int := 100 - r1.2 - r2.2 - r3.2 - r4.2 + bonus - r6.2
  let issues := r1.1 ++ r2.1 ++ r3.1 ++ r4.1 ++ r6.1
  { verdict := verdictOf issues
    score := max 0 (min 100 rawScore)
    issues := issues }

-- ### Prober (src/service_worker.js lines 236-456)

/-- A resolved HTTP response as `fetch` delivers it: status, status text,
the `content-type` header (as `headers.get` returns it, `none` if absent)
and the body text. -/
structure HttpResponse where
  status : Int
  statusText : Str
  contentType : Option Str
  bodyText : Str

/-- The network oracle: for a URL, either a thrown error message or a
resolved response (after redirects; caching is outside the model since
the source disables it). -/
abbrev Net := Str → Except Str HttpResponse

/-- `Response.ok` of the fetch API: status in the range 200-299. -/
def resOk (r : HttpResponse) : Bool := decide (200 ≤ r.status ∧ r.status ≤ 299)

/-- The `meta` record built by `fetchWithMeta` (src/service_worker.js
lines 336-361). -/
structure FetchMeta where
  url : Str
  ok : Bool
  status : Option Int
  statusText : Option Str
  contentType : Option Str
  error : Option Str
  text : Option Str
deriving DecidableEq

/-- `fetchWithMeta` from src/service_worker.js lines 336-361: on a thrown
fetch, record the error; otherwise record status data, and the body text
only on a 2xx response.  `ct || null` turns an empty header into null. -/
def fetchWithMeta (net : Net) (url : Str) : FetchMeta :=
  match net url with
  | Except.error e => ⟨url, false, none, none, none, some e, none⟩
  | Except.ok r =>
    { url := url
      ok := resOk r
      status := some r.status
      statusText := some r.statusText
      contentType := match r.contentType with
        | some ct => if ct = [] then none else some ct
        | none => none
      error := none
      text := if resOk r then some r.bodyText else none }

/-- One recorded probe attempt (the subset of `meta` pushed onto
`attempts`, src/service_worker.js lines 422-429). -/
structure Attempt where
  url : Str
  ok : Bool
  status : Option Int
  statusText : Option Str
  contentType : Option Str
  error : Option Str
deriving DecidableEq

def attemptOf (m : FetchMeta) : Attempt :=
  ⟨m.url, m.ok, m.status, m.statusText, m.contentType, m.error⟩

/-- The attempt recorded for candidate URL `u`. -/
def attemptFor (net : Net) (u : Str) : Attempt := attemptOf (fetchWithMeta net u)

inductive HostMode where
  | host
  | apex
deriving DecidableEq

structure ProbeResult where
  found : Bool
  foundUrl : Option Str
  status : Option Int
  contentType : Option Str
  text : Option Str
  attempts : List Attempt
  checkedHost : Str
  checkedHostMode : HostMode
deriving DecidableEq

def DEFAULT_ENDPOINTS : List Str := [str "/.well-known/security.txt", str "/security.txt"]

/-- JS `[...new Set(xs)]`: deduplicate keeping first occurrences in order. -/
def jsSetDedup (l : List Str) : List Str :=
  l.foldl (fun acc a => if a ∈ acc then acc else acc ++ [a]) []

/-- `expandCaseVariantsForEndpoint` from src/service_worker.js lines
305-321: an endpoint ending (case-insensitively) in `/security.txt` is
expanded into the four case variants of the filename; anything else is
kept as-is. -/
def expandCaseVariantsForEndpoint (ep : Str) : List Str :=
  if (toLowerStr (ep.drop (ep.length - 13))) = str "/security.txt" ∧ 13 ≤ ep.length then
    let pref := ep.take (ep.length - 12)
    jsSetDedup [pref ++ str "security.txt", pref ++ str "Security.txt",
      pref ++ str "security.TXT", pref ++ str "SECURITY.TXT"]
  else [ep]

/-- `buildCandidateUrlsForHost` from src/service_worker.js lines 323-334. -/
def buildCandidateUrlsForHost (host : Str) (endpoints : List Str) (tryHttpFallback : Bool) :
    List Str :=
  let expanded := ((endpoints.map expandCaseVariantsForEndpoint).flatten.map
    normalizePath).filter (fun x => x ≠ [])
  let https := expanded.map (fun ep => str "https://" ++ host ++ ep)
  if tryHttpFallback = false then https
  else https ++ expanded.map (fun ep => str "http://" ++ host ++ ep)

/-- The multi-part public-suffix table (src/service_worker.js lines 272-283). -/
def MULTIPART_SUFFIXES : List Str :=
  [str "co.uk", str "org.uk", str "ac.uk", str "gov.uk",
   str "com.au", str "net.au", str "org.au",
   str "co.nz", str "org.nz",
   str "co.jp", str "ne.jp", str "or.jp",
   str "com.br", str "com.mx",
   str "co.za",
   str "com.sg",
   str "co.in", str "net.in", str "org.in",
   str "com.tr",
   str "com.ar"]

/-- Last `n` elements of a list (JS `slice(-n)` for `n ≥ 1`). -/
def takeLast (n : Nat) (l : List Str) : List Str := l.drop (l.length - n)

def joinDots (parts : List Str) : Str := List.intercalate (str ".") parts

/-- `guessRegistrableDomain` from src/service_worker.js lines 285-302. -/
def guessRegistrableDomain (hostname : Str) : Str :=
  let parts := (splitOnChar '.' hostname).filter (fun x => x ≠ [])
  if parts.length ≤ 2 then hostname
  else
    let last2 := joinDots (takeLast 2 parts)
    if last2 ∈ MULTIPART_SUFFIXES ∧ 3 ≤ parts.length then joinDots (takeLast 3 parts)
    else joinDots (takeLast 2 parts)

structure Settings where
  extraEndpoints : List Str
  tryHttpFallback : Bool

/-- The endpoint list assembled at the top of `probeSecurityTxt`
(src/service_worker.js lines 403-405). -/
def probeEndpoints (settings : Settings) : List Str :=
  ((DEFAULT_ENDPOINTS ++ settings.extraEndpoints).map normalizePath).filter
    (fun x => x ≠ [])

/-- `hostsToTry` (src/service_worker.js line 412): the exact host, then the
registrable domain when it differs. -/
def hostsToTry (host : Str) : List Str :=
  let apex := guessRegistrableDomain host
  if host = apex then [host] else [host, apex]

/-- The inner candidate loop of `probeSecurityTxt` (src/service_worker.js
lines 419-443): fetch each candidate in order, append its attempt, stop at
the first `ok` response. -/
def runCandidates (net : Net) : List Attempt → List Str → List Attempt × Option FetchMeta
  | acc, [] => (acc, none)
  | acc, url :: rest =>
    let meta := fetchWithMeta net url
    let acc' := acc ++ [attemptOf meta]
    if meta.ok then (acc', some meta) else runCandidates net acc' rest

/-- The outer host loop of `probeSecurityTxt` (src/service_worker.js lines
416-444): attempts accumulate across hosts. -/
def runHosts (net : Net) (endpoints : List Str) (tryHttpFallback : Bool) :
    List Attempt → List Str → List Attempt × Option (FetchMeta × Str)
  | acc, [] => (acc, none)
  | acc, h :: rest =>
    match runCandidates net acc (buildCandidateUrlsForHost h endpoints tryHttpFallback) with
    | (acc', some m) => (acc', some (m, h))
    | (acc', none) => runHosts net endpoints tryHttpFallback acc' rest

/-- `probeSecurityTxt` from src/service_worker.js lines 401-456, taking the
hostname already extracted from the tab URL (`new URL(tabUrl).hostname`). -/
def probeSecurityTxt (net : Net) (settings : Settings) (host : Str) : ProbeResult :=
  let endpoints := probeEndpoints settings
  match runHosts net endpoints settings.tryHttpFallback [] (hostsToTry host) with
  | (attempts, some (m, h)) =>
    { found := true
      foundUrl := some m.url
      status := m.status
      contentType := m.contentType
      text := m.text
      attempts := attempts
      checkedHost := h
      checkedHostMode := if h = host then HostMode.host else HostMode.apex }
  | (attempts, none) =>
    { found := false
      foundUrl := none
      status := none
      contentType := none
      text := none
      attempts := attempts
      checkedHost := host
      checkedHostMode := HostMode.host }

/-- The full flattened candidate list a probe walks, in order. -/
def probeCandidates (settings : Settings) (host : Str) : List Str :=
  ((hostsToTry host).map
    (fun h => buildCandidateUrlsForHost h (probeEndpoints settings)
      settings.tryHttpFallback)).flatten

-- ### Tab check (`checkTab`, src/service_worker.js lines 458-493)

/-- `isHttpUrl` from src/service_worker.js lines 261-268: the URL parses
and its protocol is `http:` or `https:`; a parse failure is `false`. -/
def isHttpUrl (env : JsEnv) (url : Str) : Bool :=
  match env.urlParse url with
  | some u => if u.protocol = str "http:" ∨ u.protocol = str "https:" then true else false
  | none => false

inductive QLState where
  | ok
  | warn
deriving DecidableEq

def lineStartTails : Str → List Str
  | [] => []
  | c :: rest =>
    (if c = '\n' ∨ c = '\r' then [rest] else []) ++ lineStartTails rest

/-- All positions where the multiline-regex anchor `^` can match: the
start of the text and every position following `\n` or `\r`. -/
def lineStartSuffixes (s : Str) : List Str := s :: lineStartTails s

/-- Does `/^contact\s*:/im` match at this position: `contact`
case-insensitively, then whitespace, then a colon. -/
def contactAt (p : Str) : Bool :=
  toLowerStr (p.take 7) = str "contact" ∧ 7 ≤ p.length ∧
    ((p.drop 7).dropWhile isWs).head? = some ':'

/-- `quickLintState` from src/service_worker.js lines 363-367: `warn` on a
missing or empty body, else `ok` iff some line starts with `Contact:`
(case-insensitive, optional space before the colon). -/
def quickLintState (text : Option Str) : QLState :=
  match text with
  | none => QLState.warn
  | some t =>
    if t = [] then QLState.warn
    else if (lineStartSuffixes t).any contactAt then QLState.ok
    else QLState.warn

inductive BadgeState where
  | checking
  | ok
  | warn
  | no
deriving DecidableEq

/-- A cached tab payload: the not-applicable branch carries an `error`
string and empty probe data; the probe branch spreads the probe result
(src/service_worker.js lines 461-471 and 479-483). -/
structure CachePayload where
  tabUrl : Option Str
  checkedAt : Int
  found : Bool
  foundUrl : Option Str
  status : Option Int
  contentType : Option Str
  text : Option Str
  attempts : List Attempt
  error : Option Str
  checkedHost : Option Str
  checkedHostMode : Option HostMode
deriving DecidableEq

/-- Observable effects of one `checkTab` run, in order: badge updates,
the session-cache write, and one `netFetch` per HTTP request issued. -/
inductive Effect where
  | setBadge (state : BadgeState)
  | cacheWrite (payload : CachePayload)
  | netFetch (url : Str)
deriving DecidableEq

/-- JS truthiness of the optional `tabUrl` (absent or `""` are falsy). -/
def jsTruthyStr : Option Str → Bool
  | none => false
  | some s => s ≠ []

def notHttpError : Str := str "Not an http(s) URL"

/-- `checkTab` from src/service_worker.js lines 458-493 as its effect
trace.  A missing/empty or non-http(s) URL short-circuits: badge
`checking`, one cache write of the not-applicable payload, badge `no`,
and no fetches.  Otherwise the probe runs (one fetch per recorded
attempt), its result is cached, and the final badge is `no` when not
found, else `ok`/`warn` from the quick lint. -/
def checkTab (env : JsEnv) (net : Net) (settings : Settings) (now : Int)
    (tabUrl : Option Str) : List Effect :=
  if jsTruthyStr tabUrl = false ∨ isHttpUrl env (tabUrl.getD []) = false then
    [Effect.setBadge BadgeState.checking,
     Effect.cacheWrite
       { tabUrl := if jsTruthyStr tabUrl then tabUrl else none
         checkedAt := now
         found := false
         foundUrl := none
         status := none
         contentType := none
         text := none
         attempts := []
         error := some notHttpError
         checkedHost := none
         checkedHostMode := none },
     Effect.setBadge BadgeState.no]
  else
    let u := tabUrl.getD []
    let host := match env.urlParse u with
      | some p => p.hostname
      | none => []
    let r := probeSecurityTxt net settings host
    Effect.setBadge BadgeState.checking ::
      (r.attempts.map (fun a => Effect.netFetch a.url) ++
        [Effect.cacheWrite
          { tabUrl := some u
            checkedAt := now
            found := r.found
            foundUrl := r.foundUrl
            status := r.status
            contentType := r.contentType
            text := r.text
            attempts := r.attempts
            error := none
            checkedHost := some r.checkedHost
            checkedHostMode := some r.checkedHostMode },
         Effect.setBadge
           (if r.found = false then BadgeState.no
            else if quickLintState r.text = QLState.ok then BadgeState.ok
            else BadgeState.warn)])

-- ### Lint engine theorems (C5, C6, C2, C3)

theorem lint_verdict_def (env : JsEnv) (now : Int) (fields : FieldMap) :
    (lint env now fields).verdict = verdictOf (lint env now fields).issues := rfl

theorem lint_issues_def (env : JsEnv) (now : Int) (fields : FieldMap) :
    (lint env now fields).issues =
      (ruleContact env.urlParse (getValues fields (str "contact"))).1 ++
      (ruleExpires env.dateParse now (getValues fields (str "expires"))).1 ++
      (rulePolicy env.urlParse (getValues fields (str "policy"))).1 ++
      (rulePrefLang (getValues fields (str "preferred-languages"))).1 ++
      (ruleUnparsed (getValues fields unparsedKey)).1 := rfl

theorem lint_score_def (env : JsEnv) (now : Int) (fields : FieldMap) :
    (lint env now fields).score =
      max 0 (min 100
        (100 - (ruleContact env.urlParse (getValues fields (str "contact"))).2
          - (ruleExpires env.dateParse now (getValues fields (str "expires"))).2
          - (rulePolicy env.urlParse (getValues fields (str "policy"))).2
          - (rulePrefLang (getValues fields (str "preferred-languages"))).2
          + lintBonus (getValues fields (str "encryption"))
              (getValues fields (str "acknowledgments"))
              (getValues fields (str "hiring"))
          - (ruleUnparsed (getValues fields unparsedKey)).2)) := rfl

/-- C5: for every field map (and any host environment and clock), the lint
score lies in [0, 100] — the final clamp guarantees it regardless of how
penalties and bonuses sum. -/
theorem claim5_lint_score_clamped (env : JsEnv) (now : Int) (fields : FieldMap) :
    0 ≤ (lint env now fields).score ∧ (lint env now fields).score ≤ 100 := by
  unfold lint
  refine ⟨le_max_left 0 _, max_le (by norm_num) (le_trans (min_le_left _ _) (le_refl 100))⟩

/-- C6: the verdict of a lint report is exactly the derivation from its own
issues list: `fail` if some issue is `fail`, else `warn` if some issue is
`warn`, else `ok`. -/
theorem claim6_lint_verdict_derived (env : JsEnv) (now : Int) (fields : FieldMap) :
    (lint env now fields).verdict = verdictOf (lint env now fields).issues := rfl

theorem ruleExpires_penalty_bounds (dp : Str → Option Int) (now : Int) (es : List Str) :
    0 ≤ (ruleExpires dp now es).2 ∧ (ruleExpires dp now es).2 ≤ 35 := by
  unfold ruleExpires
  cases es with
  | nil => norm_num
  | cons e0 rest =>
    dsimp only
    split
    · norm_num
    · split_ifs <;> norm_num

theorem rulePolicy_penalty_bounds (up : Str → Option UrlParts) (policy : List Str) :
    0 ≤ (rulePolicy up policy).2 ∧ (rulePolicy up policy).2 ≤ 5 := by
  unfold rulePolicy
  dsimp only
  split_ifs <;> norm_num

theorem rulePrefLang_penalty_bounds (prefLang : List Str) :
    0 ≤ (rulePrefLang prefLang).2 ∧ (rulePrefLang prefLang).2 ≤ 3 := by
  unfold rulePrefLang
  dsimp only
  split_ifs <;> norm_num

theorem ruleUnparsed_penalty_bounds (vals : List Str) :
    0 ≤ (ruleUnparsed vals).2 ∧ (ruleUnparsed vals).2 ≤ 5 := by
  unfold ruleUnparsed
  split_ifs <;> norm_num

theorem verdictOf_fail_of_mem {issues : List Issue} {i : Issue}
    (hm : i ∈ issues) (hl : i.level = Level.fail) : verdictOf issues = Verdict.fail := by
  unfold verdictOf
  rw [if_pos]
  exact List.any_eq_true.mpr ⟨i, hm, by rw [hl]; rfl⟩

/-- Claim C2 counterexample: a field map with no Contact but a valid
future Expires, a good Policy URL, and all three bonus fields scores
100 − 60 + 6 = 46 > 40, refuting "score ≤ 40". -/
theorem claim2_counterexample :
    lookupField
      [(str "expires", ⟨str "Expires", [str "9999-01-01T00:00:00Z"]⟩),
       (str "policy", ⟨str "Policy", [str "mailto:sec@example.com"]⟩),
       (str "encryption", ⟨str "Encryption", [str "x"]⟩),
       (str "acknowledgments", ⟨str "Acknowledgments", [str "x"]⟩),
       (str "hiring", ⟨str "Hiring", [str "x"]⟩)] (str "contact") = none ∧
    (lint ⟨fun _ => none, isoDateParse 0⟩ 0
      [(str "expires", ⟨str "Expires", [str "9999-01-01T00:00:00Z"]⟩),
       (str "policy", ⟨str "Policy", [str "mailto:sec@example.com"]⟩),
       (str "encryption", ⟨str "Encryption", [str "x"]⟩),
       (str "acknowledgments", ⟨str "Acknowledgments", [str "x"]⟩),
       (str "hiring", ⟨str "Hiring", [str "x"]⟩)]).verdict = Verdict.fail ∧
    (lint ⟨fun _ => none, isoDateParse 0⟩ 0
      [(str "expires", ⟨str "Expires", [str "9999-01-01T00:00:00Z"]⟩),
       (str "policy", ⟨str "Policy", [str "mailto:sec@example.com"]⟩),
       (str "encryption", ⟨str "Encryption", [str "x"]⟩),
       (str "acknowledgments", ⟨str "Acknowledgments", [str "x"]⟩),
       (str "hiring", ⟨str "Hiring", [str "x"]⟩)]).score = 46 ∧
    ¬ ((lint ⟨fun _ => none, isoDateParse 0⟩ 0
      [(str "expires", ⟨str "Expires", [str "9999-01-01T00:00:00Z"]⟩),
       (str "policy", ⟨str "Policy", [str "mailto:sec@example.com"]⟩),
       (str "encryption", ⟨str "Encryption", [str "x"]⟩),
       (str "acknowledgments", ⟨str "Acknowledgments", [str "x"]⟩),
       (str "hiring", ⟨str "Hiring", [str "x"]⟩)]).score ≤ 40) := by
  refine ⟨by decide, by decide, by decide, by decide⟩

/-- C2 (amended): for every field map with no `contact` entry, the lint
verdict is `fail` and the score is at most 46 (not 40: the bonus for
Encryption/Acknowledgments/Hiring can add up to 6 on top of 100 − 60). -/
theorem claim2_lint_missing_contact (env : JsEnv) (now : Int) (fields : FieldMap)
    (h : lookupField fields (str "contact") = none) :
    (lint env now fields).verdict = Verdict.fail ∧ (lint env now fields).score ≤ 46 := by
  have hc : getValues fields (str "contact") = [] := by
    unfold getValues
    rw [h]
  have h1 : ruleContact env.urlParse (getValues fields (str "contact")) =
      ([⟨Level.fail, str "Missing Contact: field (provide at least one security contact)."⟩], 60) := by
    rw [hc]
    rfl
  constructor
  · rw [lint_verdict_def, lint_issues_def, h1]
    exact verdictOf_fail_of_mem
      (i := ⟨Level.fail, str "Missing Contact: field (provide at least one security contact)."⟩)
      (by simp) rfl
  · rw [lint_score_def, h1]
    have h2 := ruleExpires_penalty_bounds env.dateParse now (getValues fields (str "expires"))
    have h3 := rulePolicy_penalty_bounds env.urlParse (getValues fields (str "policy"))
    have h4 := rulePrefLang_penalty_bounds (getValues fields (str "preferred-languages"))
    have h6 := ruleUnparsed_penalty_bounds (getValues fields unparsedKey)
    have hb : lintBonus (getValues fields (str "encryption"))
        (getValues fields (str "acknowledgments")) (getValues fields (str "hiring")) ≤ 6 :=
      min_le_left _ _
    refine max_le (by norm_num) (le_trans (min_le_right _ _) ?_)
    omega

/-- Witness for C2 at the empty field map. -/
theorem claim2_witness :
    (lint ⟨fun _ => none, fun _ => none⟩ 0 []).verdict = Verdict.fail ∧
    (lint ⟨fun _ => none, fun _ => none⟩ 0 []).score ≤ 46 :=
  claim2_lint_missing_contact ⟨fun _ => none, fun _ => none⟩ 0 [] rfl

/-- The manifest text of the C3 scenario. -/
def claim3Text : Str := str "Expires: 2000-01-01T00:00:00Z\n"

/-- The field map that text parses to. -/
def claim3Fields : FieldMap :=
  [(str "expires", ⟨str "Expires", [str "2000-01-01T00:00:00Z"]⟩)]

/-- The host environment used for the C3 scenario: the specified ECMA-262
date parsing (the Expires value carries an explicit Z offset, so the
timezone is irrelevant) and a URL parser that is never consulted. -/
def claim3Env : JsEnv := ⟨fun _ => none, isoDateParse 0⟩

/-- Claim C3 counterexample: at a concrete instant after 2000-01-01,
lint of the parsed manifest yields verdict `fail` but score 0, not 5 -
the claim overlooked the -5 missing-Policy penalty. -/
theorem claim3_counterexample :
    (lint claim3Env 1760227212345 (parseSecurityTxt claim3Text)).verdict = Verdict.fail ∧
    (lint claim3Env 1760227212345 (parseSecurityTxt claim3Text)).score = 0 ∧
    ¬ ((lint claim3Env 1760227212345 (parseSecurityTxt claim3Text)).score = 5) := by
  have hs : (lint claim3Env 1760227212345 (parseSecurityTxt claim3Text)).score = 0 := by decide
  exact ⟨by decide, hs, by rw [hs]; norm_num⟩

/-- C3 (amended): for the manifest text `"Expires: 2000-01-01T00:00:00Z\n"`,
at any current instant after 2000-01-01, parsing followed by lint yields
verdict `fail` (missing Contact and expired date) and score
max(0, 100-60-35-5) = 0: the missing-Policy warning contributes a further
-5 beyond the claim's arithmetic. -/
theorem claim3_expired_manifest (now : Int)
    (h : (946684800000 : Int) < now) :
    (lint claim3Env now (parseSecurityTxt claim3Text)).verdict = Verdict.fail ∧
    (lint claim3Env now (parseSecurityTxt claim3Text)).score = 0 := by
  have hp : parseSecurityTxt claim3Text = claim3Fields := by decide
  rw [hp]
  have hr2 : ruleExpires claim3Env.dateParse now (getValues claim3Fields (str "expires")) =
      ([⟨Level.fail, str "Expires: is in the past (2000-01-01T00:00:00.000Z)."⟩], 35) := by
    rw [show getValues claim3Fields (str "expires") = [str "2000-01-01T00:00:00Z"] from by decide]
    unfold ruleExpires
    dsimp only
    rw [show parseRfc3339Date claim3Env.dateParse (str "2000-01-01T00:00:00Z") =
      some 946684800000 from by decide]
    dsimp only
    rw [if_pos h]
    have hmsg : str "Expires: is in the past (" ++ toIsoString 946684800000 ++ str ")." =
        str "Expires: is in the past (2000-01-01T00:00:00.000Z)." := by decide
    rw [hmsg]
  constructor
  · rw [lint_verdict_def, lint_issues_def, hr2]
    exact verdictOf_fail_of_mem
      (i := ⟨Level.fail, str "Expires: is in the past (2000-01-01T00:00:00.000Z)."⟩)
      (by simp) rfl
  · rw [lint_score_def, hr2,
      show ruleContact claim3Env.urlParse (getValues claim3Fields (str "contact")) =
        ([⟨Level.fail, str "Missing Contact: field (provide at least one security contact)."⟩], 60)
        from by decide,
      show rulePolicy claim3Env.urlParse (getValues claim3Fields (str "policy")) =
        ([⟨Level.warn, str "Missing Policy: field (recommended; points to disclosure policy)."⟩], 5)
        from by decide,
      show rulePrefLang (getValues claim3Fields (str "preferred-languages")) = ([], 0) from by decide,
      show lintBonus (getValues claim3Fields (str "encryption"))
        (getValues claim3Fields (str "acknowledgments"))
        (getValues claim3Fields (str "hiring")) = 0 from by decide,
      show ruleUnparsed (getValues claim3Fields unparsedKey) = ([], 0) from by decide]
    norm_num

/-- Witness for C3 at a concrete clock instant after 2000-01-01. -/
theorem claim3_witness :
    (lint claim3Env 1767225600000 (parseSecurityTxt claim3Text)).verdict = Verdict.fail ∧
    (lint claim3Env 1767225600000 (parseSecurityTxt claim3Text)).score = 0 :=
  claim3_expired_manifest 1767225600000 (by norm_num)

-- ### C10: lint determinism / noninterference

/-- The timestamp the Expires rule compares against the clock: the parse
of the first Expires value, if any. -/
def parseFirstExpires (dateParse : Str → Option Int) : List Str → Option Int
  | [] => none
  | e0 :: _ => parseRfc3339Date dateParse e0

theorem ruleExpires_clock_agree (dp : Str → Option Int) (now1 now2 : Int) (es : List Str)
    (h : ∀ d, parseFirstExpires dp es = some d → ((d < now1) ↔ (d < now2))) :
    ruleExpires dp now1 es = ruleExpires dp now2 es := by
  unfold ruleExpires
  cases es with
  | nil => rfl
  | cons e0 rest =>
    dsimp only
    cases hp : parseRfc3339Date dp e0 with
    | none => rfl
    | some d =>
      have hiff := h d (by simpa [parseFirstExpires] using hp)
      dsimp only
      by_cases h1 : d < now1
      · rw [if_pos h1, if_pos (hiff.mp h1)]
      · rw [if_neg h1, if_neg (fun hc => h1 (hiff.mpr hc))]

/-- C10: lint is deterministic and noninterfering.  (1) Two field maps that
agree on the values stored under `contact`, `expires`, `policy`,
`preferred-languages`, `encryption`, `acknowledgments`, `hiring` and the
reserved `__unparsed` bucket produce identical reports under the same
environment and clock — so adding or changing any other field (e.g.
`Canonical`) never changes the report.  (2) The clock influences the
report only through the comparison of the parsed first Expires value
against the current instant. -/
theorem claim10_lint_noninterference :
    (∀ (env : JsEnv) (now : Int) (f g : FieldMap),
      getValues f (str "contact") = getValues g (str "contact") →
      getValues f (str "expires") = getValues g (str "expires") →
      getValues f (str "policy") = getValues g (str "policy") →
      getValues f (str "preferred-languages") = getValues g (str "preferred-languages") →
      getValues f (str "encryption") = getValues g (str "encryption") →
      getValues f (str "acknowledgments") = getValues g (str "acknowledgments") →
      getValues f (str "hiring") = getValues g (str "hiring") →
      getValues f unparsedKey = getValues g unparsedKey →
      lint env now f = lint env now g) ∧
    (∀ (env : JsEnv) (now1 now2 : Int) (f : FieldMap),
      (∀ d, parseFirstExpires env.dateParse (getValues f (str "expires")) = some d →
        ((d < now1) ↔ (d < now2))) →
      lint env now1 f = lint env now2 f) := by
  constructor
  · intro env now f g h1 h2 h3 h4 h5 h6 h7 h8
    simp only [lint, h1, h2, h3, h4, h5, h6, h7, h8]
  · intro env now1 now2 f h
    have hre := ruleExpires_clock_agree env.dateParse now1 now2
      (getValues f (str "expires")) h
    simp only [lint, hre]

/-- Witness for C10: adding a `Canonical` field changes nothing, and two
distinct clock instants on the same side of the comparison agree. -/
theorem claim10_witness :
    lint ⟨fun _ => none, fun _ => none⟩ 0
      [(str "canonical", ⟨str "Canonical", [str "x"]⟩)] =
      lint ⟨fun _ => none, fun _ => none⟩ 0 [] ∧
    lint ⟨fun _ => none, fun _ => none⟩ 1
      [(str "canonical", ⟨str "Canonical", [str "x"]⟩)] =
      lint ⟨fun _ => none, fun _ => none⟩ 2
      [(str "canonical", ⟨str "Canonical", [str "x"]⟩)] := by
  constructor
  · exact claim10_lint_noninterference.1 ⟨fun _ => none, fun _ => none⟩ 0
      [(str "canonical", ⟨str "Canonical", [str "x"]⟩)] []
      (by decide) (by decide) (by decide) (by decide) (by decide) (by decide)
      (by decide) (by decide)
  · exact claim10_lint_noninterference.2 ⟨fun _ => none, fun _ => none⟩ 1 2
      [(str "canonical", ⟨str "Canonical", [str "x"]⟩)]
      (by
        intro d hd
        rw [show getValues [(str "canonical", ⟨str "Canonical", [str "x"]⟩)]
          (str "expires") = [] from by decide] at hd
        simp [parseFirstExpires] at hd)

-- ### C9: the reserved `__unparsed` bucket

theorem lookupField_pushValue_other (m : FieldMap) (k key n v : Str) (h : k ≠ key) :
    lookupField (pushValue m k n v) key = lookupField m key := by
  induction m with
  | nil => simp [pushValue, lookupField, h]
  | cons p rest ih =>
    obtain ⟨k0, e0⟩ := p
    by_cases hk : k0 = k
    · subst hk
      simp [pushValue, lookupField, h]
    · simp [pushValue, lookupField, hk, ih]

theorem lookupField_pushValue_same (m : FieldMap) (k n v : Str) :
    lookupField (pushValue m k n v) k = some
      ⟨(match lookupField m k with | some e => e.name | none => n),
       (match lookupField m k with | some e => e.values | none => []) ++ [v]⟩ := by
  induction m with
  | nil => simp [pushValue, lookupField]
  | cons p rest ih =>
    obtain ⟨k0, e0⟩ := p
    by_cases hk : k0 = k
    · subst hk
      simp [pushValue, lookupField]
    · simp [pushValue, lookupField, hk, ih]

theorem matchFieldLine_inv (line n v : Str) (h : matchFieldLine line = some (n, v)) :
    n = line.takeWhile nameChar ∧ n ≠ [] := by
  unfold matchFieldLine at h
  dsimp only at h
  split at h
  · split_ifs at h with hc
    have h1 : line.takeWhile nameChar = n := congrArg Prod.fst (Option.some.inj h)
    refine ⟨h1.symm, ?_⟩
    rw [← h1]
    exact hc.1
  · exact absurd h (by simp)

theorem jsToLower_ne_underscore {c : Char} (h : nameChar c = true) : jsToLower c ≠ '_' := by
  unfold jsToLower
  split_ifs with hr
  · intro he
    have hv : (UInt32.ofNat (c.toNat + 32)).toNat = c.toNat + 32 := by
      apply UInt32.toNat_ofNat_of_lt
      have hs : UInt32.size = 4294967296 := rfl
      omega
    have h2 : (UInt32.ofNat (c.toNat + 32)).toNat = ('_' : Char).toNat :=
      congrArg Char.toNat he
    have h95 : ('_' : Char).toNat = 95 := rfl
    rw [hv, h95] at h2
    omega
  · intro he
    rw [he] at h
    exact absurd h (by decide)

/-- No line matching the field grammar can produce the reserved key: the
grammar `[A-Za-z0-9-]+` excludes the underscore. -/
theorem matchFieldLine_not_unparsedKey (line n v : Str)
    (h : matchFieldLine line = some (n, v)) : toLowerStr n ≠ unparsedKey := by
  obtain ⟨hn, hne⟩ := matchFieldLine_inv line n v h
  intro habs
  cases hc : n with
  | nil => exact hne hc
  | cons c t =>
    have hcmem : c ∈ line.takeWhile nameChar := by
      rw [← hn, hc]
      exact List.mem_cons_self c t
    have hname : nameChar c = true := List.mem_takeWhile_imp hcmem
    have : jsToLower c = '_' := by
      rw [hc] at habs
      have : jsToLower c :: toLowerStr t = unparsedKey := habs
      have h2 := congrArg List.head? this
      simp [unparsedKey, str] at h2
      exact h2
    exact jsToLower_ne_underscore hname this

/-- A line that lands in the reserved bucket: nonempty after trimming, not
a comment, and not matching the field grammar. -/
def unparsedLine (line0 : Str) : Prop :=
  jsTrim line0 ≠ [] ∧ (jsTrim line0).head? ≠ some '#' ∧ matchFieldLine (jsTrim line0) = none

theorem parseStep_unparsed_inv (acc : FieldMap) (l : Str) (R : Str → Prop)
    (hacc : ∀ e, lookupField acc unparsedKey = some e →
      e.name = unparsedKey ∧ ∀ v ∈ e.values, R v) :
    ∀ e, lookupField (parseStep acc l) unparsedKey = some e →
      e.name = unparsedKey ∧ ∀ v ∈ e.values, R v ∨ (v = l ∧ unparsedLine l) := by
  intro e he
  unfold parseStep at he
  dsimp only at he
  split_ifs at he with h1 h2
  · exact ⟨(hacc e he).1, fun v hv => Or.inl ((hacc e he).2 v hv)⟩
  · exact ⟨(hacc e he).1, fun v hv => Or.inl ((hacc e he).2 v hv)⟩
  · cases hm : matchFieldLine (jsTrim l) with
    | some p =>
      rw [hm] at he
      rw [lookupField_pushValue_other _ _ _ _ _
        (matchFieldLine_not_unparsedKey (jsTrim l) p.1 p.2 (by rw [hm]))] at he
      exact ⟨(hacc e he).1, fun v hv => Or.inl ((hacc e he).2 v hv)⟩
    | none =>
      rw [hm] at he
      rw [lookupField_pushValue_same] at he
      injection he with he'
      constructor
      · rw [← he']
        cases hl : lookupField acc unparsedKey with
        | none => rfl
        | some e0 =>
          dsimp only
          exact (hacc e0 hl).1
      · intro v hv
        rw [← he'] at hv
        cases hl : lookupField acc unparsedKey with
        | none =>
          rw [hl] at hv
          simp at hv
          exact Or.inr ⟨hv, h1, h2, hm⟩
        | some e0 =>
          rw [hl] at hv
          dsimp only at hv
          rcases List.mem_append.mp hv with hold | hnew
          · exact Or.inl ((hacc e0 hl).2 v hold)
          · exact Or.inr ⟨List.mem_singleton.mp hnew, h1, h2, hm⟩

theorem foldl_parseStep_unparsed (ls : List Str) :
    ∀ (acc : FieldMap) (R : Str → Prop),
    (∀ e, lookupField acc unparsedKey = some e →
      e.name = unparsedKey ∧ ∀ v ∈ e.values, R v) →
    ∀ e, lookupField (ls.foldl parseStep acc) unparsedKey = some e →
      e.name = unparsedKey ∧ ∀ v ∈ e.values, R v ∨ (v ∈ ls ∧ unparsedLine v) := by
  induction ls with
  | nil =>
    intro acc R hacc e he
    exact ⟨(hacc e he).1, fun v hv => Or.inl ((hacc e he).2 v hv)⟩
  | cons l rest ih =>
    intro acc R hacc e he
    have hstep := parseStep_unparsed_inv acc l R hacc
    have := ih (parseStep acc l) (fun v => R v ∨ (v = l ∧ unparsedLine l)) hstep e he
    refine ⟨this.1, fun v hv => ?_⟩
    rcases this.2 v hv with (hR | ⟨hvl, hu⟩) | ⟨hmem, hu⟩
    · exact Or.inl hR
    · exact Or.inr ⟨by rw [hvl]; exact List.mem_cons_self l rest, by rw [hvl]; exact hu⟩
    · exact Or.inr ⟨List.mem_cons_of_mem l hmem, hu⟩

/-- C9: (1) no line matching the field grammar can collide with the
reserved key `__unparsed` (the grammar excludes underscores), and (2) the
`__unparsed` entry of a parsed field map, when present, has the reserved
display name and holds only verbatim input lines that are nonempty after
trimming, are not comments, and do not match the grammar. -/
theorem claim9_unparsed_reserved :
    (∀ line n v, matchFieldLine line = some (n, v) → toLowerStr n ≠ unparsedKey) ∧
    (∀ text e, lookupField (parseSecurityTxt text) unparsedKey = some e →
      e.name = unparsedKey ∧ ∀ v ∈ e.values, v ∈ splitLines text ∧ unparsedLine v) := by
  constructor
  · exact matchFieldLine_not_unparsedKey
  · intro text e he
    unfold parseSecurityTxt at he
    have := foldl_parseStep_unparsed (splitLines text) [] (fun _ => False)
      (fun e0 he0 => by exact absurd he0 (by simp [lookupField])) e he
    exact ⟨this.1, fun v hv => by
      rcases this.2 v hv with hF | hok
      · exact absurd hF (by simp)
      · exact hok⟩

/-- Witness for C9: a grammar-matching line has a non-reserved key, and a
parse producing an `__unparsed` entry satisfies the invariant. -/
theorem claim9_witness :
    toLowerStr (str "Contact") ≠ unparsedKey ∧
    ((⟨unparsedKey, [str "??"]⟩ : FieldEntry).name = unparsedKey ∧
      ∀ v ∈ [str "??"], v ∈ splitLines (str "??") ∧ unparsedLine v) := by
  constructor
  · exact claim9_unparsed_reserved.1 (str "Contact: x") (str "Contact") (str "x") (by decide)
  · exact claim9_unparsed_reserved.2 (str "??") ⟨unparsedKey, [str "??"]⟩ (by decide)

-- ### Prober theorems (C1, C7)

theorem runCandidates_cons (net : Net) (acc : List Attempt) (url : Str) (rest : List Str) :
    runCandidates net acc (url :: rest) =
      (if (fetchWithMeta net url).ok = true
       then (acc ++ [attemptOf (fetchWithMeta net url)], some (fetchWithMeta net url))
       else runCandidates net (acc ++ [attemptOf (fetchWithMeta net url)]) rest) := rfl

theorem runCandidates_none (net : Net) :
    ∀ (cands : List Str) (acc : List Attempt),
    (runCandidates net acc cands).2 = none →
    (runCandidates net acc cands).1 = acc ++ cands.map (attemptFor net) ∧
    ∀ u ∈ cands, (attemptFor net u).ok = false := by
  intro cands
  induction cands with
  | nil =>
    intro acc _
    exact ⟨by simp [runCandidates], by simp⟩
  | cons url rest ih =>
    intro acc hnone
    by_cases hok : (fetchWithMeta net url).ok = true
    · exfalso
      rw [runCandidates_cons, if_pos hok] at hnone
      simp at hnone
    · rw [runCandidates_cons, if_neg hok] at hnone ⊢
      obtain ⟨h1, h2⟩ := ih (acc ++ [attemptOf (fetchWithMeta net url)]) hnone
      refine ⟨by rw [h1]; simp [attemptFor], ?_⟩
      intro u hu
      rcases List.mem_cons.mp hu with rfl | hmem
      · simpa [attemptFor, Bool.not_eq_true] using hok
      · exact h2 u hmem

theorem runCandidates_some (net : Net) :
    ∀ (cands : List Str) (acc : List Attempt) (m : FetchMeta),
    (runCandidates net acc cands).2 = some m →
    ∃ pre u post, cands = pre ++ u :: post ∧
      (runCandidates net acc cands).1 = acc ++ (pre ++ [u]).map (attemptFor net) ∧
      (∀ p ∈ pre, (attemptFor net p).ok = false) ∧
      (attemptFor net u).ok = true ∧ m = fetchWithMeta net u := by
  intro cands
  induction cands with
  | nil =>
    intro acc m h
    simp [runCandidates] at h
  | cons url rest ih =>
    intro acc m h
    by_cases hok : (fetchWithMeta net url).ok = true
    · rw [runCandidates_cons, if_pos hok] at h ⊢
      refine ⟨[], url, rest, by simp, by simp [attemptFor], by simp, ?_, ?_⟩
      · simpa [attemptFor] using hok
      · simpa using h.symm
    · rw [runCandidates_cons, if_neg hok] at h ⊢
      obtain ⟨pre, u, post, hcands, hatts, hpre, hu, hm⟩ :=
        ih (acc ++ [attemptOf (fetchWithMeta net url)]) m h
      refine ⟨url :: pre, u, post, by rw [hcands]; rfl, ?_, ?_, hu, hm⟩
      · rw [hatts]
        simp [attemptFor]
      · intro p hp
        rcases List.mem_cons.mp hp with rfl | hmem
        · simpa [attemptFor, Bool.not_eq_true] using hok
        · exact hpre p hmem

theorem runCandidates_append (net : Net) :
    ∀ (l1 l2 : List Str) (acc : List Attempt),
    runCandidates net acc (l1 ++ l2) =
      match runCandidates net acc l1 with
      | (a, some m) => (a, some m)
      | (a, none) => runCandidates net a l2 := by
  intro l1
  induction l1 with
  | nil => intro l2 acc; rfl
  | cons url rest ih =>
    intro l2 acc
    show runCandidates net acc (url :: (rest ++ l2)) = _
    rw [runCandidates_cons net acc url (rest ++ l2), runCandidates_cons net acc url rest]
    by_cases hok : (fetchWithMeta net url).ok = true
    · rw [if_pos hok, if_pos hok]
    · rw [if_neg hok, if_neg hok]
      exact ih l2 (acc ++ [attemptOf (fetchWithMeta net url)])

theorem runHosts_cons (net : Net) (eps : List Str) (tryH : Bool) (acc : List Attempt)
    (h0 : Str) (rest : List Str) :
    runHosts net eps tryH acc (h0 :: rest) =
      (match runCandidates net acc (buildCandidateUrlsForHost h0 eps tryH) with
       | (acc', some m) => (acc', some (m, h0))
       | (acc', none) => runHosts net eps tryH acc' rest) := rfl

theorem runHosts_eq (net : Net) (eps : List Str) (tryH : Bool) :
    ∀ (hosts : List Str) (acc : List Attempt),
    (runHosts net eps tryH acc hosts).1 =
      (runCandidates net acc
        ((hosts.map (fun h => buildCandidateUrlsForHost h eps tryH)).flatten)).1 ∧
    (runHosts net eps tryH acc hosts).2.map Prod.fst =
      (runCandidates net acc
        ((hosts.map (fun h => buildCandidateUrlsForHost h eps tryH)).flatten)).2 := by
  intro hosts
  induction hosts with
  | nil => intro acc; exact ⟨rfl, rfl⟩
  | cons h0 rest ih =>
    intro acc
    have hflat : ((h0 :: rest).map (fun h => buildCandidateUrlsForHost h eps tryH)).flatten =
        buildCandidateUrlsForHost h0 eps tryH ++
          (rest.map (fun h => buildCandidateUrlsForHost h eps tryH)).flatten := by
      simp
    rw [hflat, runCandidates_append net _ _ acc, runHosts_cons]
    cases hrc : runCandidates net acc (buildCandidateUrlsForHost h0 eps tryH) with
    | mk a res =>
      cases res with
      | some m => exact ⟨rfl, rfl⟩
      | none => exact ih a

theorem probeSecurityTxt_match (net : Net) (settings : Settings) (host : Str) :
    probeSecurityTxt net settings host =
      (match runHosts net (probeEndpoints settings) settings.tryHttpFallback []
          (hostsToTry host) with
       | (attempts, some (m, h)) =>
         { found := true, foundUrl := some m.url, status := m.status,
           contentType := m.contentType, text := m.text, attempts := attempts,
           checkedHost := h,
           checkedHostMode := if h = host then HostMode.host else HostMode.apex }
       | (attempts, none) =>
         { found := false, foundUrl := none, status := none, contentType := none,
           text := none, attempts := attempts, checkedHost := host,
           checkedHostMode := HostMode.host }) := rfl

/-- C1: a probe either fails with exactly one recorded attempt per candidate,
in candidate order, all of them non-ok, or succeeds with the attempts being
the record of a prefix of the candidates whose last (and only) ok entry is
the successful fetch — no candidate after it is attempted.  Moreover,
`found = true` iff the attempts list ends in an entry with `ok = true`. -/
theorem claim1_probe_attempts (net : Net) (settings : Settings) (host : Str) :
    ((probeSecurityTxt net settings host).found = false →
      (probeSecurityTxt net settings host).attempts =
        (probeCandidates settings host).map (attemptFor net) ∧
      ∀ a ∈ (probeSecurityTxt net settings host).attempts, a.ok = false) ∧
    ((probeSecurityTxt net settings host).found = true →
      ∃ pre u post, probeCandidates settings host = pre ++ u :: post ∧
        (probeSecurityTxt net settings host).attempts =
          (pre ++ [u]).map (attemptFor net) ∧
        (∀ a ∈ (probeSecurityTxt net settings host).attempts.dropLast, a.ok = false) ∧
        (probeSecurityTxt net settings host).attempts.getLast? =
          some (attemptFor net u) ∧
        (attemptFor net u).ok = true) ∧
    ((probeSecurityTxt net settings host).found = true ↔
      ∃ a, (probeSecurityTxt net settings host).attempts.getLast? = some a ∧
        a.ok = true) := by
  have hps := probeSecurityTxt_match net settings host
  have hre := runHosts_eq net (probeEndpoints settings) settings.tryHttpFallback
    (hostsToTry host) []
  have hcands : probeCandidates settings host =
      ((hostsToTry host).map (fun h => buildCandidateUrlsForHost h (probeEndpoints settings)
        settings.tryHttpFallback)).flatten := rfl
  rcases hR : runHosts net (probeEndpoints settings) settings.tryHttpFallback []
      (hostsToTry host) with ⟨attempts, res⟩
  rw [hR] at hps hre
  cases res with
  | none =>
    dsimp only at hps hre
    have hrc2 : (runCandidates net []
        ((hostsToTry host).map (fun h => buildCandidateUrlsForHost h (probeEndpoints settings)
          settings.tryHttpFallback)).flatten).2 = none := hre.2.symm
    obtain ⟨h1, h2⟩ := runCandidates_none net _ [] hrc2
    have hatts : attempts = (probeCandidates settings host).map (attemptFor net) := by
      rw [hcands, hre.1, h1]
      simp
    refine ⟨?_, ?_, ?_⟩
    · intro _
      rw [hps]
      refine ⟨hatts, ?_⟩
      intro a ha
      rw [hatts] at ha
      obtain ⟨u, hu, rfl⟩ := List.mem_map.mp ha
      exact h2 u (by rw [← hcands]; exact hu)
    · intro hfound
      rw [hps] at hfound
      simp at hfound
    · rw [hps]
      constructor
      · intro hfound
        simp at hfound
      · intro ⟨a, hlast, haok⟩
        exfalso
        have hmem : a ∈ attempts := List.mem_of_mem_getLast? hlast
        rw [hatts] at hmem
        obtain ⟨u, hu, rfl⟩ := List.mem_map.mp hmem
        rw [hcands] at hu
        rw [h2 u hu] at haok
        exact Bool.false_ne_true haok
  | some p =>
    obtain ⟨m, h0⟩ := p
    dsimp only at hps hre
    have hrc2 : (runCandidates net []
        ((hostsToTry host).map (fun h => buildCandidateUrlsForHost h (probeEndpoints settings)
          settings.tryHttpFallback)).flatten).2 = some m := hre.2.symm
    obtain ⟨pre, u, post, hdecomp, hatts0, hpre, huok, hm⟩ :=
      runCandidates_some net _ [] m hrc2
    have hatts : attempts = (pre ++ [u]).map (attemptFor net) := by
      rw [hre.1, hatts0]
      simp
    have hlast : attempts.getLast? = some (attemptFor net u) := by
      rw [hatts, List.map_append]
      exact List.getLast?_concat _
    refine ⟨?_, ?_, ?_⟩
    · intro hfound
      rw [hps] at hfound
      simp at hfound
    · intro _
      rw [hps]
      refine ⟨pre, u, post, by rw [hcands]; exact hdecomp, hatts, ?_, hlast, huok⟩
      intro a ha
      simp only [hatts, List.map_append, List.map_cons, List.map_nil,
        List.dropLast_concat] at ha
      obtain ⟨q, hq, rfl⟩ := List.mem_map.mp ha
      exact hpre q hq
    · rw [hps]
      exact ⟨fun _ => ⟨attemptFor net u, hlast, huok⟩, fun _ => rfl⟩

/-- Witness for C1: with a network that always fails, the probe records one
non-ok attempt per candidate. -/
theorem claim1_witness :
    (probeSecurityTxt (fun _ => Except.error (str "boom")) ⟨[], false⟩
      (str "example.com")).attempts =
      (probeCandidates ⟨[], false⟩ (str "example.com")).map
        (attemptFor (fun _ => Except.error (str "boom"))) ∧
    ∀ a ∈ (probeSecurityTxt (fun _ => Except.error (str "boom")) ⟨[], false⟩
      (str "example.com")).attempts, a.ok = false :=
  (claim1_probe_attempts (fun _ => Except.error (str "boom")) ⟨[], false⟩
    (str "example.com")).1 (by decide)

theorem attemptFor_url (net : Net) (u : Str) : (attemptFor net u).url = u := by
  unfold attemptFor attemptOf fetchWithMeta
  cases net u with
  | error e => rfl
  | ok r => rfl

theorem map_url_attemptFor (net : Net) (l : List Str) :
    (l.map (attemptFor net)).map Attempt.url = l := by
  rw [List.map_map]
  have h : Attempt.url ∘ attemptFor net = fun u => u :=
    funext (fun u => attemptFor_url net u)
  rw [h]
  exact List.map_id' l

/-- The attempts of any probe are the records of a prefix of its candidate
list, in order. -/
theorem probe_attempts_prefix (net : Net) (settings : Settings) (host : Str) :
    ∃ k, (probeSecurityTxt net settings host).attempts =
      ((probeCandidates settings host).take k).map (attemptFor net) := by
  have hps := probeSecurityTxt_match net settings host
  have hre := runHosts_eq net (probeEndpoints settings) settings.tryHttpFallback
    (hostsToTry host) []
  have hcands : probeCandidates settings host =
      ((hostsToTry host).map (fun h => buildCandidateUrlsForHost h (probeEndpoints settings)
        settings.tryHttpFallback)).flatten := rfl
  rcases hR : runHosts net (probeEndpoints settings) settings.tryHttpFallback []
      (hostsToTry host) with ⟨attempts, res⟩
  rw [hR] at hps hre
  cases res with
  | none =>
    dsimp only at hps hre
    obtain ⟨h1, _⟩ := runCandidates_none net _ [] hre.2.symm
    refine ⟨(probeCandidates settings host).length, ?_⟩
    rw [hps]
    show attempts = _
    rw [hre.1, h1, List.take_length, ← hcands]
    simp
  | some p =>
    obtain ⟨m, h0⟩ := p
    dsimp only at hps hre
    obtain ⟨pre, u, post, hdecomp, hatts0, _, _, _⟩ :=
      runCandidates_some net _ [] m hre.2.symm
    refine ⟨pre.length + 1, ?_⟩
    rw [hps]
    show attempts = _
    have htake : (pre ++ u :: post).take (pre.length + 1) = pre ++ [u] := by
      rw [List.take_append_eq_append_take, List.take_of_length_le (by omega)]
      congr 1
      have h1 : pre.length + 1 - pre.length = 1 := by omega
      rw [h1]
      rfl
    rw [hre.1, hatts0, hcands, hdecomp, htake]
    simp

/-- The hostname of the C7 scenario. -/
def claim7Host : Str := str "www.example.co.uk"

/-- Its registrable domain per the heuristic. -/
def claim7Apex : Str := str "example.co.uk"

/-- Candidate URLs for the exact host with default settings. -/
def claim7CandsW : List Str :=
  buildCandidateUrlsForHost claim7Host (probeEndpoints ⟨[], false⟩) false

/-- Candidate URLs for the registrable domain with default settings. -/
def claim7CandsA : List Str :=
  buildCandidateUrlsForHost claim7Apex (probeEndpoints ⟨[], false⟩) false

/-- C7: the registrable-domain heuristic maps `www.example.co.uk` to
`example.co.uk`; with no extra settings the probe walks every candidate of
the exact host before any candidate of the registrable domain (the tried
URLs are always a prefix of host-candidates ++ apex-candidates, and if any
apex candidate was tried then all host candidates were tried first); and a
host equal to its own registrable domain is probed only once. -/
theorem claim7_host_before_apex :
    guessRegistrableDomain claim7Host = claim7Apex ∧
    (∀ net : Net, ∃ k,
      (probeSecurityTxt net ⟨[], false⟩ claim7Host).attempts.map Attempt.url =
        (claim7CandsW ++ claim7CandsA).take k) ∧
    (∀ net : Net,
      (∃ a ∈ (probeSecurityTxt net ⟨[], false⟩ claim7Host).attempts,
        a.url ∈ claim7CandsA) →
      ((probeSecurityTxt net ⟨[], false⟩ claim7Host).attempts.map Attempt.url).take
        claim7CandsW.length = claim7CandsW) ∧
    (∀ host : Str, guessRegistrableDomain host = host → hostsToTry host = [host]) := by
  have hcand : probeCandidates ⟨[], false⟩ claim7Host = claim7CandsW ++ claim7CandsA := by
    decide
  have hurls : ∀ net : Net, ∃ k,
      (probeSecurityTxt net ⟨[], false⟩ claim7Host).attempts.map Attempt.url =
        (claim7CandsW ++ claim7CandsA).take k := by
    intro net
    obtain ⟨k, hk⟩ := probe_attempts_prefix net ⟨[], false⟩ claim7Host
    refine ⟨k, ?_⟩
    rw [hk, map_url_attemptFor, hcand]
  refine ⟨by decide, hurls, ?_, ?_⟩
  · intro net ⟨a, hmem, hina⟩
    obtain ⟨k, hk⟩ := hurls net
    have hdisj : ∀ x ∈ claim7CandsA, x ∉ claim7CandsW := by decide
    have haurl : a.url ∈ (claim7CandsW ++ claim7CandsA).take k := by
      rw [← hk]
      exact List.mem_map.mpr ⟨a, hmem, rfl⟩
    have hlen : claim7CandsW.length ≤ k := by
      by_contra hlt
      push_neg at hlt
      have : a.url ∈ claim7CandsW := by
        have h1 : (claim7CandsW ++ claim7CandsA).take k =
            claim7CandsW.take k ++ claim7CandsA.take (k - claim7CandsW.length) := by
          exact List.take_append_eq_append_take
        have h2 : k - claim7CandsW.length = 0 := by omega
        rw [h1, h2] at haurl
        simp only [List.take_zero, List.append_nil] at haurl
        exact List.mem_of_mem_take haurl
      exact hdisj a.url hina this
    rw [hk, List.take_take, min_eq_left hlen, List.take_left]
  · intro host hh
    unfold hostsToTry
    rw [if_pos hh.symm]

/-- Witness for C7: with an always-failing network the probe tries all 16
candidates, so some attempt's URL lies in the apex candidate list and the
first 8 tried URLs are exactly the host candidates. -/
theorem claim7_witness :
    ((probeSecurityTxt (fun _ => Except.error (str "x")) ⟨[], false⟩
      claim7Host).attempts.map Attempt.url).take claim7CandsW.length = claim7CandsW ∧
    hostsToTry (str "example.com") = [str "example.com"] := by
  constructor
  · exact (claim7_host_before_apex.2.2.1) (fun _ => Except.error (str "x")) (by decide)
  · exact claim7_host_before_apex.2.2.2 (str "example.com") (by decide)

-- ### C8: checkTab short-circuit on non-http(s) URLs

/-- C8: when the tab has no navigable URL (absent or empty) or the URL is
not http/https, `checkTab` short-circuits the probe cycle: the effect
trace is exactly badge `checking`, one session-cache write of the
not-applicable payload (`found = false`, empty attempts, the error string
`"Not an http(s) URL"`), and badge `no` — in particular no network
request is issued. -/
theorem claim8_checkTab_not_applicable (env : JsEnv) (net : Net) (settings : Settings)
    (now : Int) (tabUrl : Option Str)
    (h : jsTruthyStr tabUrl = false ∨ isHttpUrl env (tabUrl.getD []) = false) :
    checkTab env net settings now tabUrl =
      [Effect.setBadge BadgeState.checking,
       Effect.cacheWrite
         ⟨if jsTruthyStr tabUrl then tabUrl else none, now, false, none, none, none, none,
          [], some notHttpError, none, none⟩,
       Effect.setBadge BadgeState.no] ∧
    (∀ u, Effect.netFetch u ∉ checkTab env net settings now tabUrl) ∧
    (∃ payload, Effect.cacheWrite payload ∈ checkTab env net settings now tabUrl ∧
      payload.found = false ∧ payload.attempts = [] ∧
      payload.error = some notHttpError) := by
  have htr : checkTab env net settings now tabUrl =
      [Effect.setBadge BadgeState.checking,
       Effect.cacheWrite
         ⟨if jsTruthyStr tabUrl then tabUrl else none, now, false, none, none, none, none,
          [], some notHttpError, none, none⟩,
       Effect.setBadge BadgeState.no] := by
    unfold checkTab
    rw [if_pos h]
  refine ⟨htr, ?_, ?_⟩
  · intro u hu
    rw [htr] at hu
    simp at hu
  · refine ⟨⟨if jsTruthyStr tabUrl then tabUrl else none, now, false, none, none, none,
      none, [], some notHttpError, none, none⟩, ?_, rfl, rfl, rfl⟩
    rw [htr]
    simp

/-- Witness for C8 at a browser-internal URL: the trace is the defined
not-applicable sequence. -/
theorem claim8_witness :
    checkTab ⟨fun _ => none, fun _ => none⟩ (fun _ => Except.error (str "net"))
      ⟨[], false⟩ 0 (some (str "chrome://newtab")) =
      [Effect.setBadge BadgeState.checking,
       Effect.cacheWrite
         ⟨some (str "chrome://newtab"), 0, false, none, none, none, none,
          [], some notHttpError, none, none⟩,
       Effect.setBadge BadgeState.no] := by
  have h := claim8_checkTab_not_applicable ⟨fun _ => none, fun _ => none⟩
    (fun _ => Except.error (str "net")) ⟨[], false⟩ 0 (some (str "chrome://newtab"))
    (Or.inr (by decide))
  rw [h.1]
  decide
